import Mathlib

/-!
Shallow embedding of `src/changetrackname.py`.

The program renames one key of a persisted mapping (a Python `dict` pickled
to the file `<storeBaseName>.emat`, mapping names to dates).  We model:

* the in-memory mapping as an ordered association list `List (String × V)`
  (a Python `dict` preserves insertion order and has unique keys);
* `{k: v for k, v in db.items() if k != oldName}` as `pyFilter`;
* `dict(A, **{newName: db[oldName]})` as `pyInsert` — CPython updates an
  existing key in place (the entry keeps its original position) and appends
  a fresh key at the end;
* `db[oldName]` as `lookup`, whose `none` result models the `KeyError`;
* the file system as the content of the single resolved store path,
  `Option (Content V)`: `none` when the file does not exist,
  `Content.pickled db` for a well-formed pickle of `db`, `Content.corrupt`
  for bytes `pickle.load` rejects, and `Content.truncated` for the empty
  file left behind by `open(filename, 'wb')` when no dump follows.

`main` mirrors the Python control flow, including the order of effects:
the write-mode `open` truncates the file before `db[oldName]` is evaluated,
so a missing `oldName` raises `KeyError` only after the store has been
emptied.  `sys.exit(main(...))` turns `main`'s `return 1` into exit code 1
and the implicit `None` return into exit code 0; an uncaught exception
(`KeyError`, a failed `pickle.load`) aborts the process with a traceback.
-/

namespace Emat

variable {V : Type}

/-- The key sequence of an association list (`db.keys()`). -/
def keys (db : List (String × V)) : List String :=
  db.map Prod.fst

/-- Python `db[k]`: first (and, for a real dict, only) value stored at `k`;
`none` models the `KeyError`. -/
def lookup : List (String × V) → String → Option V
  | [], _ => none
  | (k, v) :: rest, q => if k = q then some v else lookup rest q

/-- `{k: v for k, v in db.items() if k != old}` — the comprehension walks the
items in order and keeps every entry whose key differs from `old`. -/
def pyFilter : List (String × V) → String → List (String × V)
  | [], _ => []
  | (k, v) :: rest, old =>
      if k ≠ old then (k, v) :: pyFilter rest old else pyFilter rest old

/-- Overwriting the value of an existing key: the entry keeps its position,
only its value changes (CPython `dict` update semantics). -/
def updEntry : List (String × V) → String → V → List (String × V)
  | [], _, _ => []
  | (p, w) :: rest, k, v =>
      if p = k then (k, v) :: updEntry rest k v else (p, w) :: updEntry rest k v

/-- `dict(db, **{k: v})`: if `k` is already a key, its entry is overwritten
in place (keeping its original position); otherwise `(k, v)` is appended at
the end. -/
def pyInsert (db : List (String × V)) (k : String) (v : V) : List (String × V) :=
  if k ∈ keys db then updEntry db k v else db ++ [(k, v)]

/-- The in-memory rename built by lines 22–25 of the source:
`dict({k: v for k, v in db.items() if k != old}, **{new: db[old]})`.
`none` models the `KeyError` raised when `old` is not a key. -/
def rename (db : List (String × V)) (old nw : String) : Option (List (String × V)) :=
  (lookup db old).map (fun v => pyInsert (pyFilter db old) nw v)

/-- What the bytes of the store file can deserialize to. -/
inductive Content (V : Type) where
  /-- A well-formed pickle of the mapping `db`. -/
  | pickled (db : List (String × V))
  /-- Bytes that `pickle.load` rejects with an exception. -/
  | corrupt
  /-- The empty file left by `open(filename, 'wb')` with no completed dump;
  `pickle.load` also rejects it. -/
  | truncated
  deriving DecidableEq

/-- The exceptions `main` can let escape (the `try` only catches
`FileNotFoundError`). -/
inductive Err where
  /-- `KeyError` from `db[oldName]`. -/
  | keyError (k : String)
  /-- `pickle.load` failed on the existing file's bytes. -/
  | loadError
  deriving DecidableEq

/-- How the process ends: a normal return from `main` (fed to `sys.exit`,
with the text printed on the way, if any), or an uncaught exception, which
aborts the process with a nonzero status and a traceback. -/
inductive Outcome where
  | exits (code : Nat) (printed : Option String)
  | crashed (e : Err)
  deriving DecidableEq

/-- Line 12: `filename = argv[0] + '.emat'`. -/
def resolvePath (base : String) : String :=
  base ++ ".emat"

/-- `main(argv)` with `argv = [storeBase, old, nw]`, over the content of the
resolved store file.  Returns the process outcome and the file's content
afterwards.  Note the order of effects in the source: `open(filename, 'wb')`
truncates the file first, and only then is `db[oldName]` evaluated while the
arguments of `pickle.dump` are built. -/
def main (storeBase old nw : String) (file : Option (Content V)) :
    Outcome × Option (Content V) :=
  let filename := resolvePath storeBase
  match file with
  | none =>
      (Outcome.exits 1 (some ("File " ++ filename ++ " not found")), none)
  | some Content.corrupt => (Outcome.crashed Err.loadError, some Content.corrupt)
  | some Content.truncated => (Outcome.crashed Err.loadError, some Content.truncated)
  | some (Content.pickled db) =>
      match lookup db old with
      | none => (Outcome.crashed (Err.keyError old), some Content.truncated)
      | some v =>
          (Outcome.exits 0 none,
           some (Content.pickled (pyInsert (pyFilter db old) nw v)))

/-! ### Lemmas about `lookup`, `pyFilter`, `pyInsert` -/

theorem lookup_eq_none_iff (db : List (String × V)) (k : String) :
    lookup db k = none ↔ k ∉ keys db := by
  induction db with
  | nil => simp [lookup, keys]
  | cons kv rest ih =>
    obtain ⟨q, v⟩ := kv
    by_cases h : q = k
    · subst h; simp [lookup, keys]
    · simp [lookup, keys, h, Ne.symm h, ih]

theorem keys_cons (q : String) (v : V) (rest : List (String × V)) :
    keys ((q, v) :: rest) = q :: keys rest :=
  rfl

theorem mem_keys_iff_lookup (db : List (String × V)) (k : String) :
    k ∈ keys db ↔ ∃ v, lookup db k = some v := by
  induction db with
  | nil => simp [lookup, keys]
  | cons kv rest ih =>
    obtain ⟨q, v⟩ := kv
    rw [keys_cons, List.mem_cons]
    by_cases h : q = k
    · subst h
      simp [lookup]
    · have hl : lookup ((q, v) :: rest) k = lookup rest k := by simp [lookup, h]
      rw [hl, ← ih]
      simp [Ne.symm h]

theorem lookup_append_left {l₁ : List (String × V)} (l₂ : List (String × V))
    {k : String} {v : V} (h : lookup l₁ k = some v) :
    lookup (l₁ ++ l₂) k = some v := by
  induction l₁ with
  | nil => simp [lookup] at h
  | cons kv rest ih =>
    obtain ⟨q, w⟩ := kv
    by_cases hq : q = k
    · simp [lookup, hq] at h ⊢; exact h
    · simp [lookup, hq] at h ⊢; exact ih h

theorem lookup_append_right {l₁ : List (String × V)} (l₂ : List (String × V))
    {k : String} (h : lookup l₁ k = none) :
    lookup (l₁ ++ l₂) k = lookup l₂ k := by
  induction l₁ with
  | nil => rfl
  | cons kv rest ih =>
    obtain ⟨q, w⟩ := kv
    by_cases hq : q = k
    · simp [lookup, hq] at h
    · simp [lookup, hq] at h ⊢; exact ih h

theorem lookup_append_single_ne (db : List (String × V)) {q k : String}
    (v : V) (h : q ≠ k) :
    lookup (db ++ [(k, v)]) q = lookup db q := by
  cases hc : lookup db q with
  | some w => exact lookup_append_left _ hc
  | none =>
    rw [lookup_append_right _ hc]
    simp [lookup, Ne.symm h, hc]

theorem keys_append (l₁ l₂ : List (String × V)) :
    keys (l₁ ++ l₂) = keys l₁ ++ keys l₂ :=
  List.map_append _ _ _

theorem mem_keys_pyFilter (db : List (String × V)) (k a : String) :
    k ∈ keys (pyFilter db a) ↔ k ∈ keys db ∧ k ≠ a := by
  induction db with
  | nil => simp [pyFilter, keys]
  | cons kv rest ih =>
    obtain ⟨q, v⟩ := kv
    by_cases hq : q = a
    · subst hq
      rw [show pyFilter ((q, v) :: rest) q = pyFilter rest q from by
          simp [pyFilter],
        ih, keys_cons, List.mem_cons]
      constructor
      · rintro ⟨h1, h2⟩; exact ⟨Or.inr h1, h2⟩
      · rintro ⟨h1 | h1, h2⟩
        · exact absurd h1 h2
        · exact ⟨h1, h2⟩
    · rw [show pyFilter ((q, v) :: rest) a = (q, v) :: pyFilter rest a from by
          simp [pyFilter, hq],
        keys_cons, List.mem_cons, ih, keys_cons, List.mem_cons]
      constructor
      · rintro (rfl | ⟨h1, h2⟩)
        · exact ⟨Or.inl rfl, hq⟩
        · exact ⟨Or.inr h1, h2⟩
      · rintro ⟨rfl | h1, h2⟩
        · exact Or.inl rfl
        · exact Or.inr ⟨h1, h2⟩

theorem not_mem_keys_pyFilter_self (db : List (String × V)) (a : String) :
    a ∉ keys (pyFilter db a) := by
  intro h
  exact ((mem_keys_pyFilter db a a).mp h).2 rfl

theorem lookup_pyFilter_ne (db : List (String × V)) {k a : String} (h : k ≠ a) :
    lookup (pyFilter db a) k = lookup db k := by
  induction db with
  | nil => rfl
  | cons kv rest ih =>
    obtain ⟨q, v⟩ := kv
    by_cases hq : q = a
    · subst hq
      rw [show pyFilter ((q, v) :: rest) q = pyFilter rest q from by
          simp [pyFilter],
        ih]
      simp [lookup, Ne.symm h]
    · rw [show pyFilter ((q, v) :: rest) a = (q, v) :: pyFilter rest a from by
          simp [pyFilter, hq]]
      by_cases hk : q = k
      · simp [lookup, hk]
      · simp [lookup, hk, ih]

theorem pyFilter_eq_self {db : List (String × V)} {a : String}
    (h : a ∉ keys db) :
    pyFilter db a = db := by
  induction db with
  | nil => rfl
  | cons kv rest ih =>
    obtain ⟨q, v⟩ := kv
    have hcons : a ∈ keys ((q, v) :: rest) ↔ a = q ∨ a ∈ keys rest := by
      rw [keys_cons, List.mem_cons]
    have hqa : q ≠ a := fun hq => h (hcons.mpr (Or.inl hq.symm))
    have hrest : a ∉ keys rest := fun hm => h (hcons.mpr (Or.inr hm))
    simp [pyFilter, hqa, ih hrest]

theorem pyFilter_append (l₁ l₂ : List (String × V)) (a : String) :
    pyFilter (l₁ ++ l₂) a = pyFilter l₁ a ++ pyFilter l₂ a := by
  induction l₁ with
  | nil => rfl
  | cons kv rest ih =>
    obtain ⟨q, v⟩ := kv
    by_cases hq : q = a
    · simp [pyFilter, hq, ih]
    · simp [pyFilter, hq, ih]

theorem pyInsert_of_not_mem {db : List (String × V)} {k : String} (v : V)
    (h : k ∉ keys db) :
    pyInsert db k v = db ++ [(k, v)] := by
  simp [pyInsert, h]

theorem keys_updEntry (db : List (String × V)) (k : String) (v : V) :
    keys (updEntry db k v) = keys db := by
  induction db with
  | nil => rfl
  | cons kv rest ih =>
    obtain ⟨q, w⟩ := kv
    by_cases hq : q = k
    · subst hq
      rw [show updEntry ((q, w) :: rest) q v = (q, v) :: updEntry rest q v from by
          simp [updEntry],
        keys_cons, keys_cons, ih]
    · rw [show updEntry ((q, w) :: rest) k v = (q, w) :: updEntry rest k v from by
          simp [updEntry, hq],
        keys_cons, keys_cons, ih]

theorem keys_pyInsert_of_mem {db : List (String × V)} {k : String} (v : V)
    (h : k ∈ keys db) :
    keys (pyInsert db k v) = keys db := by
  rw [pyInsert, if_pos h, keys_updEntry]

theorem lookup_updEntry_self {db : List (String × V)} {k : String} (v : V)
    (h : k ∈ keys db) :
    lookup (updEntry db k v) k = some v := by
  induction db with
  | nil => simp [keys] at h
  | cons kv rest ih =>
    obtain ⟨q, w⟩ := kv
    by_cases hq : q = k
    · subst hq; simp [updEntry, lookup]
    · have hk : k ∈ keys rest := by
        have hcons : k ∈ q :: keys rest := h
        rcases List.mem_cons.mp hcons with h1 | h1
        · exact absurd h1.symm hq
        · exact h1
      simp [updEntry, lookup, hq, ih hk]

theorem lookup_pyInsert_self (db : List (String × V)) (k : String) (v : V) :
    lookup (pyInsert db k v) k = some v := by
  by_cases h : k ∈ keys db
  · rw [pyInsert, if_pos h]
    exact lookup_updEntry_self v h
  · rw [pyInsert_of_not_mem v h,
      lookup_append_right _ ((lookup_eq_none_iff db k).mpr h)]
    simp [lookup]

theorem lookup_updEntry_ne (db : List (String × V)) {q k : String} (v : V)
    (h : q ≠ k) :
    lookup (updEntry db k v) q = lookup db q := by
  induction db with
  | nil => rfl
  | cons kv rest ih =>
    obtain ⟨p, w⟩ := kv
    by_cases hp : p = k
    · subst hp
      rw [show updEntry ((p, w) :: rest) p v = (p, v) :: updEntry rest p v from by
          simp [updEntry]]
      simp [lookup, Ne.symm h, ih]
    · rw [show updEntry ((p, w) :: rest) k v = (p, w) :: updEntry rest k v from by
          simp [updEntry, hp]]
      by_cases hpq : p = q
      · simp [lookup, hpq]
      · simp [lookup, hpq, ih]

theorem lookup_pyInsert_ne (db : List (String × V)) {q k : String} (v : V)
    (h : q ≠ k) :
    lookup (pyInsert db k v) q = lookup db q := by
  by_cases hm : k ∈ keys db
  · rw [pyInsert, if_pos hm]
    exact lookup_updEntry_ne db v h
  · rw [pyInsert_of_not_mem v hm, lookup_append_single_ne db v h]

theorem mem_keys_pyFilter_append_self (S : List (String × V)) (a : String)
    (v : V) (ha : a ∈ keys S) (k : String) :
    k ∈ keys (pyFilter S a ++ [(a, v)]) ↔ k ∈ keys S := by
  rw [keys_append, List.mem_append, mem_keys_pyFilter]
  simp only [keys, List.map_cons, List.map_nil, List.mem_singleton]
  constructor
  · rintro (⟨h1, _⟩ | rfl)
    · exact h1
    · exact ha
  · intro h
    by_cases hk : k = a
    · exact Or.inr hk
    · exact Or.inl ⟨h, hk⟩

theorem lookup_pyFilter_append_self (S : List (String × V)) (a : String)
    (v : V) (hv : lookup S a = some v) (k : String) :
    lookup (pyFilter S a ++ [(a, v)]) k = lookup S k := by
  by_cases hk : k = a
  · subst hk
    rw [lookup_append_right _
        ((lookup_eq_none_iff _ _).mpr (not_mem_keys_pyFilter_self S k)), hv]
    simp [lookup]
  · rw [lookup_append_single_ne _ v hk, lookup_pyFilter_ne _ hk]

/-! ### The claims -/

/-- Claim C1: for every store mapping `S` (unique keys) and names `a ≠ b`
with `a` a key of `S` and `b` not a key of `S`, the rename succeeds and
produces a mapping whose key set is that of `S` with `a` removed and `b`
added, in which `b` maps to `S[a]` and every other key `k` maps to `S[k]`. -/
theorem rename_fresh_target_spec (S : List (String × V)) (a b : String)
    (hnd : (keys S).Nodup) (hab : a ≠ b) (ha : a ∈ keys S) (hb : b ∉ keys S) :
    ∃ T v, rename S a b = some T ∧ lookup S a = some v ∧
      (∀ k, k ∈ keys T ↔ (k ∈ keys S ∧ k ≠ a) ∨ k = b) ∧
      lookup T b = some v ∧
      ∀ k, k ≠ a → k ≠ b → lookup T k = lookup S k := by
  obtain ⟨v, hv⟩ := (mem_keys_iff_lookup S a).mp ha
  have hbf : b ∉ keys (pyFilter S a) := fun hm =>
    hb ((mem_keys_pyFilter S b a).mp hm).1
  refine ⟨pyFilter S a ++ [(b, v)], v, ?_, hv, ?_, ?_, ?_⟩
  · simp [rename, hv, pyInsert_of_not_mem v hbf]
  · intro k
    rw [keys_append, List.mem_append, mem_keys_pyFilter]
    simp [keys]
  · rw [lookup_append_right _ ((lookup_eq_none_iff _ _).mpr hbf)]
    simp [lookup]
  · intro k hka hkb
    rw [lookup_append_single_ne _ v hkb, lookup_pyFilter_ne _ hka]

theorem rename_fresh_target_spec_witness :
    ∃ T v,
      rename [("alice", (1 : Nat)), ("bob", 2)] "alice" "carol" = some T ∧
      lookup [("alice", (1 : Nat)), ("bob", 2)] "alice" = some v ∧
      (∀ k, k ∈ keys T ↔
        (k ∈ keys [("alice", (1 : Nat)), ("bob", 2)] ∧ k ≠ "alice") ∨ k = "carol") ∧
      lookup T "carol" = some v ∧
      ∀ k, k ≠ "alice" → k ≠ "carol" →
        lookup T k = lookup [("alice", (1 : Nat)), ("bob", 2)] k :=
  rename_fresh_target_spec _ _ _ (by decide) (by decide) (by decide) (by decide)

/-- Claim C3: for every store mapping `S` and names `a ≠ b` both keys of
`S`, renaming `a` to `b` succeeds (no error), the result maps `b` to `S[a]`
(discarding the value previously stored at `b`), and `a` is no longer a
key. -/
theorem rename_collision_overwrites (S : List (String × V)) (a b : String)
    (hnd : (keys S).Nodup) (hab : a ≠ b) (ha : a ∈ keys S) (hb : b ∈ keys S) :
    ∃ T v, rename S a b = some T ∧ lookup S a = some v ∧
      lookup T b = some v ∧ b ∈ keys T ∧ a ∉ keys T := by
  obtain ⟨v, hv⟩ := (mem_keys_iff_lookup S a).mp ha
  have hbf : b ∈ keys (pyFilter S a) :=
    (mem_keys_pyFilter S b a).mpr ⟨hb, Ne.symm hab⟩
  refine ⟨pyInsert (pyFilter S a) b v, v, by simp [rename, hv], hv,
    lookup_pyInsert_self _ _ _, ?_, ?_⟩
  · rw [keys_pyInsert_of_mem v hbf]; exact hbf
  · rw [keys_pyInsert_of_mem v hbf]; exact not_mem_keys_pyFilter_self S a

theorem rename_collision_overwrites_witness :
    ∃ T v,
      rename [("alice", (1 : Nat)), ("bob", 2)] "alice" "bob" = some T ∧
      lookup [("alice", (1 : Nat)), ("bob", 2)] "alice" = some v ∧
      lookup T "bob" = some v ∧ "bob" ∈ keys T ∧ "alice" ∉ keys T :=
  rename_collision_overwrites _ _ _ (by decide) (by decide) (by decide) (by decide)

/-- Claim C5: for every store mapping `S` and key `a` of `S`, renaming `a`
to `a` is a no-op up to entry order: the result has the same key set and
the same value at every key, in particular the value is still stored under
`a`. -/
theorem rename_self_noop (S : List (String × V)) (a : String)
    (hnd : (keys S).Nodup) (ha : a ∈ keys S) :
    ∃ T, rename S a a = some T ∧ (∀ k, k ∈ keys T ↔ k ∈ keys S) ∧
      (∀ k, lookup T k = lookup S k) ∧ lookup T a = lookup S a := by
  obtain ⟨v, hv⟩ := (mem_keys_iff_lookup S a).mp ha
  have haf : a ∉ keys (pyFilter S a) := not_mem_keys_pyFilter_self S a
  refine ⟨pyFilter S a ++ [(a, v)], ?_,
    mem_keys_pyFilter_append_self S a v ha,
    lookup_pyFilter_append_self S a v hv,
    lookup_pyFilter_append_self S a v hv a⟩
  simp [rename, hv, pyInsert_of_not_mem v haf]

theorem rename_self_noop_witness :
    ∃ T, rename [("alice", (1 : Nat)), ("bob", 2)] "alice" "alice" = some T ∧
      (∀ k, k ∈ keys T ↔ k ∈ keys [("alice", (1 : Nat)), ("bob", 2)]) ∧
      (∀ k, lookup T k = lookup [("alice", (1 : Nat)), ("bob", 2)] k) ∧
      lookup T "alice" = lookup [("alice", (1 : Nat)), ("bob", 2)] "alice" :=
  rename_self_noop _ _ (by decide) (by decide)

/-- Claim C10: for every store mapping `S` and names `a ≠ b` with `a` a key
of `S` and `b` not a key of `S`, renaming `a` to `b` and then `b` back to
`a` (both in memory) yields a mapping with the same key set and the same
value at every key as `S`. -/
theorem rename_roundtrip (S : List (String × V)) (a b : String)
    (hnd : (keys S).Nodup) (hab : a ≠ b) (ha : a ∈ keys S) (hb : b ∉ keys S) :
    ∃ T U, rename S a b = some T ∧ rename T b a = some U ∧
      (∀ k, k ∈ keys U ↔ k ∈ keys S) ∧ ∀ k, lookup U k = lookup S k := by
  obtain ⟨v, hv⟩ := (mem_keys_iff_lookup S a).mp ha
  have hbf : b ∉ keys (pyFilter S a) := fun hm =>
    hb ((mem_keys_pyFilter S b a).mp hm).1
  have haf2 : a ∉ keys (pyFilter S a) := not_mem_keys_pyFilter_self S a
  have hT : rename S a b = some (pyFilter S a ++ [(b, v)]) := by
    simp [rename, hv, pyInsert_of_not_mem v hbf]
  have hTb : lookup (pyFilter S a ++ [(b, v)]) b = some v := by
    rw [lookup_append_right _ ((lookup_eq_none_iff _ _).mpr hbf)]
    simp [lookup]
  have hfT : pyFilter (pyFilter S a ++ [(b, v)]) b = pyFilter S a := by
    rw [pyFilter_append, pyFilter_eq_self hbf]
    simp [pyFilter]
  have hU : rename (pyFilter S a ++ [(b, v)]) b a =
      some (pyFilter S a ++ [(a, v)]) := by
    simp [rename, hTb, hfT, pyInsert_of_not_mem v haf2]
  exact ⟨pyFilter S a ++ [(b, v)], pyFilter S a ++ [(a, v)], hT, hU,
    mem_keys_pyFilter_append_self S a v ha,
    lookup_pyFilter_append_self S a v hv⟩

theorem rename_roundtrip_witness :
    ∃ T U,
      rename [("alice", (1 : Nat)), ("bob", 2)] "alice" "carol" = some T ∧
      rename T "carol" "alice" = some U ∧
      (∀ k, k ∈ keys U ↔ k ∈ keys [("alice", (1 : Nat)), ("bob", 2)]) ∧
      ∀ k, lookup U k = lookup [("alice", (1 : Nat)), ("bob", 2)] k :=
  rename_roundtrip _ _ _ (by decide) (by decide) (by decide) (by decide)

/-- Claim C6 as stated fails when `newName` already occurs among the
unaffected entries: renaming `"a"` to `"b"` in `[("b",1),("c",3),("a",2)]`
overwrites the existing `("b", _)` entry in place (CPython dict update),
yielding `[("b",2),("c",3)]` rather than the unaffected entries followed by
a trailing `("b", 2)`. -/
theorem rename_order_counterexample :
    rename [("b", (1 : Nat)), ("c", 3), ("a", 2)] "a" "b" ≠
      some (pyFilter [("b", (1 : Nat)), ("c", 3), ("a", 2)] "a" ++ [("b", 2)]) := by
  decide

/-- Claim C6 amended: for every store `S` containing `oldName = a` (with
value `v`), the written mapping preserves the unaffected entries in their
original relative order; the entry for `newName = b` is appended at the end
when `b` does not occur among the unaffected entries, and otherwise the
existing `b` entry is overwritten in place (same key sequence as the
unaffected entries, value `v` at `b`, all other values unchanged). -/
theorem rename_order_amended (S : List (String × V)) (a b : String) (v : V)
    (hv : lookup S a = some v) :
    (b ∉ keys (pyFilter S a) →
      rename S a b = some (pyFilter S a ++ [(b, v)])) ∧
    (b ∈ keys (pyFilter S a) →
      ∃ T, rename S a b = some T ∧ keys T = keys (pyFilter S a) ∧
        lookup T b = some v ∧
        ∀ k, k ≠ b → lookup T k = lookup (pyFilter S a) k) := by
  constructor
  · intro hbf
    simp [rename, hv, pyInsert_of_not_mem v hbf]
  · intro hbf
    exact ⟨pyInsert (pyFilter S a) b v, by simp [rename, hv],
      keys_pyInsert_of_mem v hbf, lookup_pyInsert_self _ _ _,
      fun k hk => lookup_pyInsert_ne _ v hk⟩

theorem rename_order_amended_witness :
    (("b" : String) ∉ keys (pyFilter [("b", (1 : Nat)), ("c", 3), ("a", 2)] "a") →
      rename [("b", (1 : Nat)), ("c", 3), ("a", 2)] "a" "b" =
        some (pyFilter [("b", (1 : Nat)), ("c", 3), ("a", 2)] "a" ++ [("b", 2)])) ∧
    (("b" : String) ∈ keys (pyFilter [("b", (1 : Nat)), ("c", 3), ("a", 2)] "a") →
      ∃ T, rename [("b", (1 : Nat)), ("c", 3), ("a", 2)] "a" "b" = some T ∧
        keys T = keys (pyFilter [("b", (1 : Nat)), ("c", 3), ("a", 2)] "a") ∧
        lookup T "b" = some 2 ∧
        ∀ k, k ≠ "b" →
          lookup T k = lookup (pyFilter [("b", (1 : Nat)), ("c", 3), ("a", 2)] "a") k) :=
  rename_order_amended _ "a" "b" 2 (by decide)

/-- Claim C2 (evidence of the code bug): with the store file holding the
pickled mapping `{"alice": 1}` and `oldName = "bob"` absent from it, the
program truncates the store file (the write-mode `open` on line 20 empties
it before `db[oldName]` is evaluated) and then crashes with an uncaught
`KeyError` — the on-disk store is destroyed rather than left untouched, and
no clean `KeyNotFound` error is produced. -/
theorem main_absent_key_truncates_store :
    main "store" "bob" "carol" (some (Content.pickled [("alice", (1 : Nat))])) =
      (Outcome.crashed (Err.keyError "bob"), some Content.truncated) := by
  decide

/-- Claim C4: when the resolved store file does not exist, `main` returns 1
(so the process exits with code 1), prints a message that contains the
missing filename, and attempts no write — the file still does not exist
afterwards. -/
theorem main_store_not_found (V : Type) (base oldN newN : String) :
    ∃ msg : String,
      main base oldN newN (none : Option (Content V)) =
        (Outcome.exits 1 (some msg), none) ∧
      ∃ pre post, msg = pre ++ resolvePath base ++ post :=
  ⟨"File " ++ resolvePath base ++ " not found", rfl, "File ", " not found", rfl⟩

/-- Claim C7: when the store file exists but its bytes cannot be
deserialized (`Content.corrupt`, or an already-empty `Content.truncated`
file), the program aborts with the uncaught deserialization error — a
nonzero-status crash — without attempting any write: the file's content is
unchanged. -/
theorem main_corrupt_store_aborts (V : Type) (base oldN newN : String) :
    main base oldN newN (some (Content.corrupt : Content V)) =
      (Outcome.crashed Err.loadError, some (Content.corrupt : Content V)) ∧
    main base oldN newN (some (Content.truncated : Content V)) =
      (Outcome.crashed Err.loadError, some (Content.truncated : Content V)) :=
  ⟨rfl, rfl⟩

/-- Claim C8: on every successful invocation — the store file exists,
deserializes to a mapping, and the rename completes because `oldName` is
present — `main` returns `None`, so `sys.exit` ends the process with exit
code 0. -/
theorem main_success_exits_zero (base oldN newN : String)
    (db : List (String × V)) (v : V) (h : lookup db oldN = some v) :
    (main base oldN newN (some (Content.pickled db))).1 =
      Outcome.exits 0 none := by
  simp [main, h]

theorem main_success_exits_zero_witness :
    (main "store" "alice" "carol"
        (some (Content.pickled [("alice", (1 : Nat)), ("bob", 2)]))).1 =
      Outcome.exits 0 none :=
  main_success_exits_zero _ _ _ _ 1 (by decide)

/-- Claim C9: the store file path operated on is the store base name
followed by one fixed extension, the same for every invocation. -/
theorem resolvePath_fixed_extension :
    ∃ ext : String, ∀ base : String, resolvePath base = base ++ ext :=
  ⟨".emat", fun _ => rfl⟩

end Emat
